import Mathlib

/-!
Shallow embedding of the ultra-kcp core (src/ultra-kcp-core/src/kcp.rs and
constants.rs) and verification of the specification claims about it.

Machine integers (`u32`, `usize`) are modelled as `Nat`; the one place the
source performs arithmetic on a `u32` that can wrap in a reachable way
(`rcv_nxt += 1` in `receive`) is modelled with an explicit `% 2^32`.
Vectors of segments are modelled as `List Segment`, used (as the source
does) with push-at-end, remove-at-front, and last-element mutation.
-/

namespace UltraKcp

/-- Normal minimum retransmission timeout (constants.rs). -/
def IKCP_RTO_MIN : Nat := 100

/-- Default retransmission timeout (constants.rs). -/
def IKCP_RTO_DEF : Nat := 200

/-- Send window size (constants.rs). -/
def IKCP_WND_SND : Nat := 32

/-- Receive window size (constants.rs). -/
def IKCP_WND_RCV : Nat := 128

/-- Default maximum transmission unit (constants.rs). -/
def IKCP_MTU_DEF : Nat := 1400

/-- Default interval for protocol updates in ms (constants.rs). -/
def IKCP_INTERVAL : Nat := 100

/-- Protocol overhead size: the 24-byte segment header (constants.rs). -/
def IKCP_OVERHEAD : Nat := 24

/-- Dead link threshold (constants.rs). -/
def IKCP_DEADLINK : Nat := 20

/-- Initial congestion window threshold (constants.rs). -/
def IKCP_THRESH_INIT : Nat := 2

/-- Maximum times to trigger fast acknowledgment (constants.rs). -/
def IKCP_FASTACK_LIMIT : Nat := 5

/-- Modulus of the `u32` type. -/
def U32_MOD : Nat := 2 ^ 32

/-- KcpProbeFlags::ASK_SEND bit (constants.rs). -/
def ASK_SEND : Nat := 1

/-- KcpProbeFlags::ASK_TELL bit (constants.rs). -/
def ASK_TELL : Nat := 2

/-- The error type `KcpError` of constants.rs. -/
inductive KcpError where
  | QueueEmpty
  | BufferTooSmall
  | IncompleteMessage
  | WindowFull
deriving DecidableEq

/-- The `Command` enum of constants.rs (Push=81, Ack=82, Wask=83, Wins=84). -/
inductive Command where
  | push
  | ack
  | wask
  | wins
deriving DecidableEq

/-- `impl TryFrom<u32> for Command` (constants.rs). -/
def Command.tryFrom (value : Nat) : Except String Command :=
  if value = 81 then .ok .push
  else if value = 82 then .ok .ack
  else if value = 83 then .ok .wask
  else if value = 84 then .ok .wins
  else .error "Invalid command value"

/-- `impl From<Command> for u32` (constants.rs): `command as u32`. -/
def Command.toU32 : Command → Nat
  | .push => 81
  | .ack => 82
  | .wask => 83
  | .wins => 84

/-- The `Segment` struct of kcp.rs.  Bytes are modelled as `Nat`. -/
structure Segment where
  conv : Nat := 0
  cmd : Nat := 0
  frg : Nat := 0
  wnd : Nat := 0
  ts : Nat := 0
  sn : Nat := 0
  una : Nat := 0
  len : Nat := 0
  resendts : Nat := 0
  rto : Nat := 0
  fastack : Nat := 0
  xmit : Nat := 0
  data : List Nat := []
deriving DecidableEq

/-- `Segment::new(data_size)`: default segment with a zero-filled payload
buffer of `data_size` bytes. -/
def Segment.new (dataSize : Nat) : Segment :=
  { data := List.replicate dataSize 0 }

/-- The fields of `KcpControl` (kcp.rs) that the modelled operations read or
write.  The callback and user-data slots (trait objects) carry no state the
modelled operations depend on and are left out; `set_callback` is modelled as
the identity on the remaining fields. -/
structure KcpControl where
  conversation_id : Nat := 0
  mtu : Nat := 0
  mss : Nat := 0
  state : Nat := 0
  snd_una : Nat := 0
  snd_nxt : Nat := 0
  rcv_nxt : Nat := 0
  ssthresh : Nat := 0
  rx_rto : Nat := 0
  rx_minrto : Nat := 0
  send_window : Nat := 0
  recv_window : Nat := 0
  rmt_wnd : Nat := 0
  cwnd : Nat := 0
  probe : Nat := 0
  interval : Nat := 0
  dead_link : Nat := 0
  fastlimit : Nat := 0
  snd_queue : List Segment := []
  rcv_queue : List Segment := []
  snd_buf : List Segment := []
  rcv_buf : List Segment := []
  acklist : List Nat := []
  write_log : Bool := false
  log_mask : Nat := 0
  nocwnd : Bool := false
  streaming_mode : Bool := false
deriving DecidableEq

/-- `KcpControl::update_mss`: `self.mss = self.mtu - IKCP_OVERHEAD`. -/
def KcpControl.update_mss (k : KcpControl) : KcpControl :=
  { k with mss := k.mtu - IKCP_OVERHEAD }

/-- `KcpControl::init` (as reached from `new_alloc` / `new_on_stack`):
sets the default parameters. -/
def KcpControl.init (conversation_id : Nat) : KcpControl :=
  KcpControl.update_mss
    { conversation_id := conversation_id
      send_window := IKCP_WND_SND
      recv_window := IKCP_WND_RCV
      rmt_wnd := IKCP_WND_RCV
      mtu := IKCP_MTU_DEF
      rx_rto := IKCP_RTO_DEF
      rx_minrto := IKCP_RTO_MIN
      interval := IKCP_INTERVAL
      ssthresh := IKCP_THRESH_INIT
      fastlimit := IKCP_FASTACK_LIMIT
      dead_link := IKCP_DEADLINK }

/-- `KcpControl::set_logging`. -/
def KcpControl.set_logging (k : KcpControl) (enable : Bool) : KcpControl :=
  { k with write_log := enable }

/-- `KcpControl::set_log_mask` (the bitflags value as a `Nat`). -/
def KcpControl.set_log_mask (k : KcpControl) (mask : Nat) : KcpControl :=
  { k with log_mask := mask }

/-- `KcpControl::set_callback`: stores the callback trait object, which is
outside the modelled state, so on the modelled fields it is the identity. -/
def KcpControl.set_callback (k : KcpControl) : KcpControl := k

/-- The summation loop of `peek_size`: `total_len += seg.len` for each
segment, breaking after the first segment with `frg == 0`. -/
def peekLoop : List Segment → Nat
  | [] => 0
  | seg :: rest => seg.len + (if seg.frg = 0 then 0 else peekLoop rest)

/-- `KcpControl::peek_size` (kcp.rs). -/
def KcpControl.peek_size (k : KcpControl) : Except KcpError Nat :=
  match k.rcv_queue with
  | [] => .error .QueueEmpty
  | first :: _ =>
    if first.frg = 0 then .ok first.len
    else if k.rcv_queue.length < first.frg + 1 then .error .IncompleteMessage
    else .ok (peekLoop k.rcv_queue)

/-- Number of leading segments of the receive queue that make up one logical
message: everything up to and including the first segment with `frg = 0`
(the whole queue when no such segment exists). -/
def msgSegCount : List Segment → Nat
  | [] => 0
  | seg :: rest => if seg.frg = 0 then 1 else msgSegCount rest + 1

/-- Sum of the `len` fields of a list of segments. -/
def sumLens (l : List Segment) : Nat := (l.map (·.len)).sum

/-- The merge-fragments loop of `receive`: walking the receive queue from the
front, for each segment it copies `seg.data[..seg.len]` (at `copy_offset`),
adds `seg.len` to `total_len`, and stops after the first `frg == 0` segment.
Returns (bytes copied, total length, number of segments consumed). -/
def recvLoop : List Segment → List Nat × Nat × Nat
  | [] => ([], 0, 0)
  | seg :: rest =>
    let bytes := seg.data.take seg.len
    if seg.frg = 0 then (bytes, seg.len, 1)
    else
      let r := recvLoop rest
      (bytes ++ r.1, seg.len + r.2.1, r.2.2 + 1)

/-- The buffer-to-queue loop of `receive`: while the receive buffer is
non-empty and the receive queue holds fewer than `window` segments, if the
head of the buffer has `sn == rnxt` move it to the back of the queue and
increment `rnxt` (a `u32` increment, hence mod `2^32`), otherwise stop.
Returns (new receive buffer, new receive queue, new `rcv_nxt`). -/
def transferRcv : List Segment → List Segment → Nat → Nat →
    List Segment × List Segment × Nat
  | [], queue, rnxt, _ => ([], queue, rnxt)
  | seg :: rest, queue, rnxt, window =>
    if queue.length < window then
      if seg.sn = rnxt then
        transferRcv rest (queue ++ [seg]) ((rnxt + 1) % U32_MOD) window
      else (seg :: rest, queue, rnxt)
    else (seg :: rest, queue, rnxt)

/-- `KcpControl::receive` (kcp.rs).  The caller's buffer is modelled as
`Option (List Nat)`; the returned triple is (result, new control block,
buffer contents after the call).  The copy into the buffer is sequential
from offset 0, so the post-call buffer is the copied bytes followed by the
untouched tail of the original buffer. -/
def KcpControl.receive (k : KcpControl) (data : Option (List Nat))
    (isPeek : Bool) : Except KcpError Nat × KcpControl × Option (List Nat) :=
  if k.rcv_queue = [] then (.error .QueueEmpty, k, data)
  else
    match k.peek_size with
    | .error e => (.error e, k, data)
    | .ok peeksize =>
      let tooSmall : Bool :=
        match data with
        | some buf => decide (buf.length < peeksize)
        | none => false
      if tooSmall then (.error .BufferTooSmall, k, data)
      else
        let r := recvLoop k.rcv_queue
        let copied := r.1
        let totalLen := r.2.1
        let consumed := r.2.2
        let recover := k.recv_window ≤ k.rcv_queue.length
        let dataOut :=
          match data with
          | some buf => some (copied ++ buf.drop copied.length)
          | none => none
        let queue1 := if isPeek then k.rcv_queue else k.rcv_queue.drop consumed
        let t := transferRcv k.rcv_buf queue1 k.rcv_nxt k.recv_window
        let probeNew :=
          if t.2.1.length < k.recv_window ∧ recover then Nat.lor k.probe ASK_TELL
          else k.probe
        (.ok totalLen,
         { k with rcv_queue := t.2.1, rcv_buf := t.1, rcv_nxt := t.2.2,
                  probe := probeNew },
         dataOut)

/-- The streaming-mode prefix of `send`: if in streaming mode and the send
queue has a last segment with `len < mss`, append up to `mss - len` bytes to
it, set its `frg` to 0, and return (new control block, remaining data,
bytes appended).  Otherwise everything is unchanged and 0 bytes are sent. -/
def sendStreamPhase (k : KcpControl) (data : List Nat) :
    KcpControl × List Nat × Nat :=
  if k.streaming_mode = true then
    match k.snd_queue.getLast? with
    | some seg =>
      if seg.len < k.mss then
        let capacity := k.mss - seg.len
        let extend := if data.length < capacity then data.length else capacity
        let segNew := { seg with
            data := seg.data ++ data.take extend
            len := seg.len + extend
            frg := 0 }
        ({ k with snd_queue := k.snd_queue.dropLast ++ [segNew] },
         data.drop extend, extend)
      else (k, data, 0)
    | none => (k, data, 0)
  else (k, data, 0)

/-- The segment count computed by `send` for the remaining data: 1 when the
data fits in one segment, otherwise the round-up division
`(len + mss - 1) / mss`. -/
def segmentCountRaw (len mss : Nat) : Nat :=
  if len ≤ mss then 1 else (len + mss - 1) / mss

/-- The segment-creation loop of `send`: each iteration takes
`min(mss, remaining)` bytes into a fresh segment whose `len` is that size and
whose `frg` is the number of iterations still to come (packet mode) or 0
(streaming mode).  The fuel argument is the loop counter `count - i`. -/
def mkSegments (streaming : Bool) (mss : Nat) : Nat → List Nat → List Segment
  | 0, _ => []
  | n + 1, dataPtr =>
    let size := if mss < dataPtr.length then mss else dataPtr.length
    let seg := { Segment.new size with
        data := dataPtr.take size
        len := size
        frg := if streaming then 0 else n }
    seg :: mkSegments streaming mss n (dataPtr.drop size)

/-- `KcpControl::send` (kcp.rs).  The source asserts `mss > 0` on entry;
theorems about `send` therefore carry `0 < k.mss` as a hypothesis. -/
def KcpControl.send (k : KcpControl) (data : List Nat) :
    Except KcpError Nat × KcpControl :=
  let p := sendStreamPhase k data
  let k1 := p.1
  let dataPtr := p.2.1
  let sent := p.2.2
  if k.streaming_mode = true ∧ dataPtr = [] then (.ok sent, k1)
  else
    let count0 := segmentCountRaw dataPtr.length k1.mss
    if k1.recv_window ≤ count0 then
      if k1.streaming_mode = true ∧ 0 < sent then (.ok sent, k1)
      else (.error .WindowFull, k1)
    else
      let count := if count0 = 0 then 1 else count0
      let segs := mkSegments k1.streaming_mode k1.mss count dataPtr
      (.ok (sent + sumLens segs), { k1 with snd_queue := k1.snd_queue ++ segs })

/-- Modelled from the spec: the excerpt under src/ contains no runtime mtu
setter (only the private `update_mss` helper); spec section 4.2 requires that
"changing `mtu` at runtime must re-derive `mss` and must reject if
`mtu <= IKCP_OVERHEAD`". -/
def KcpControl.set_mtu (k : KcpControl) (mtu : Nat) : Except Unit KcpControl :=
  if mtu ≤ IKCP_OVERHEAD then .error ()
  else .ok (KcpControl.update_mss { k with mtu := mtu })

/-- One public operation of the control block, for claims quantifying over
sequences of calls. -/
inductive Op where
  | opSend (data : List Nat)
  | opReceive (buf : Option (List Nat)) (isPeek : Bool)
  | opPeekSize
  | opSetLogging (b : Bool)
  | opSetLogMask (m : Nat)
  | opSetCallback

/-- The state transition of one public operation (`peek_size` takes `&self`
and transitions nothing). -/
def stepOp (k : KcpControl) : Op → KcpControl
  | .opSend d => (k.send d).2
  | .opReceive b p => (k.receive b p).2.1
  | .opPeekSize => k
  | .opSetLogging b => k.set_logging b
  | .opSetLogMask m => k.set_log_mask m
  | .opSetCallback => k.set_callback

/-- State after running a sequence of public operations on a freshly
constructed control block. -/
def run (conversation_id : Nat) (ops : List Op) : KcpControl :=
  ops.foldl stepOp (KcpControl.init conversation_id)

/-- A control block in packet mode whose receive window was shrunk to one
segment; used to exhibit edge-case behaviour of `send`. -/
def cexKcp : KcpControl := { KcpControl.init 0 with recv_window := 1 }

/-- A control block whose receive queue holds the first fragment (frg = 1)
of a not yet complete two-fragment message. -/
def cexKcpIncomplete : KcpControl :=
  { KcpControl.init 0 with
      rcv_queue := [{ frg := 1, len := 3, data := [10, 11, 12] }] }

/-- A freshly constructed control block switched into streaming mode. -/
def kStream : KcpControl := { KcpControl.init 0 with streaming_mode := true }

/-- The receive queue as it stands right after the merge-fragments loop of
`receive`: unchanged when peeking, otherwise with the consumed message's
segments removed from the front. -/
def consumedQueue (k : KcpControl) (isPeek : Bool) : List Segment :=
  if isPeek then k.rcv_queue else k.rcv_queue.drop (msgSegCount k.rcv_queue)

/-- A control block holding one complete two-fragment message (3 bytes) in
the receive queue and one in-order segment (sn = 0 = rcv_nxt) in the
receive buffer. -/
def cexKcpMsg : KcpControl :=
  { KcpControl.init 0 with
      rcv_queue := [{ frg := 1, len := 2, sn := 5, data := [1, 2] },
                    { frg := 0, len := 1, sn := 6, data := [3] }],
      rcv_buf := [{ frg := 0, len := 1, sn := 0, data := [7] }] }

end UltraKcp

namespace UltraKcp

theorem peekLoop_eq_sumLens (q : List Segment) :
    peekLoop q = sumLens (q.take (msgSegCount q)) := by
  induction q with
  | nil => rfl
  | cons s rest ih =>
    by_cases h : s.frg = 0 <;>
      simp [peekLoop, msgSegCount, sumLens, h, ih, List.take_succ_cons]

/-- Claim C9: `Command::try_from(v)` succeeds exactly on the four tags
81, 82, 83, 84, yielding Push, Ack, Wask, Wins respectively, fails on every
other value, and converting the resulting command back to `u32` round-trips
to `v`. -/
theorem claim_C9 (v : Nat) :
    (Command.tryFrom v = .ok .push ↔ v = 81) ∧
    (Command.tryFrom v = .ok .ack ↔ v = 82) ∧
    (Command.tryFrom v = .ok .wask ↔ v = 83) ∧
    (Command.tryFrom v = .ok .wins ↔ v = 84) ∧
    (v ≠ 81 → v ≠ 82 → v ≠ 83 → v ≠ 84 →
      Command.tryFrom v = .error "Invalid command value") ∧
    (∀ c, Command.tryFrom v = .ok c → c.toU32 = v) := by
  unfold Command.tryFrom
  split_ifs with h1 h2 h3 h4 <;> subst_vars <;>
    constructor <;> simp_all [Command.toU32] <;>
    rintro c hc <;> cases c <;> simp_all [Command.toU32]

theorem claim_C9_witness :
    Command.tryFrom 81 = .ok .push ∧ Command.toU32 .push = 81 ∧
    Command.tryFrom 85 = .error "Invalid command value" :=
  ⟨(claim_C9 81).1.mpr rfl,
   (claim_C9 81).2.2.2.2.2 .push ((claim_C9 81).1.mpr rfl),
   (claim_C9 85).2.2.2.2.1 (by decide) (by decide) (by decide) (by decide)⟩

/-- Claim C3: `peek_size()` returns `QueueEmpty` exactly when the receive
queue is empty; with a fragment-index-0 head it returns that segment's
length; with a head of nonzero fragment index `frg` it returns
`IncompleteMessage` exactly when fewer than `frg + 1` segments are queued,
and otherwise the sum of the lengths of the leading segments up to and
including the first fragment-index-0 segment.  (`peek_size` takes `&self`
in the source and is embedded as a pure function, so it modifies no state.) -/
theorem claim_C3 (k : KcpControl) :
    (k.peek_size = .error .QueueEmpty ↔ k.rcv_queue = []) ∧
    (∀ first rest, k.rcv_queue = first :: rest → first.frg = 0 →
      k.peek_size = .ok first.len) ∧
    (∀ first rest, k.rcv_queue = first :: rest → first.frg ≠ 0 →
      (k.peek_size = .error .IncompleteMessage ↔
        k.rcv_queue.length < first.frg + 1) ∧
      (first.frg + 1 ≤ k.rcv_queue.length →
        k.peek_size = .ok (sumLens (k.rcv_queue.take (msgSegCount k.rcv_queue))))) := by
  refine ⟨?_, ?_, ?_⟩
  · cases hq : k.rcv_queue with
    | nil => simp [KcpControl.peek_size, hq]
    | cons f r =>
      simp only [KcpControl.peek_size, hq]
      split_ifs <;> simp [hq]
  · intro first rest hq hf
    simp [KcpControl.peek_size, hq, hf]
  · intro first rest hq hf
    constructor
    · simp only [KcpControl.peek_size, hq]
      split_ifs with h1 h2 <;> simp_all [hq]
    · intro hlen
      have hlen' : first.frg + 1 ≤ (first :: rest).length := hq ▸ hlen
      have hnl := Nat.not_lt.mpr hlen'
      have hps : k.peek_size = .ok (peekLoop k.rcv_queue) := by
        simp only [KcpControl.peek_size, hq]
        rw [if_neg hf, if_neg (hq ▸ hnl)]
      rw [hps, peekLoop_eq_sumLens]

theorem claim_C3_witness :
    cexKcpIncomplete.peek_size = .error .IncompleteMessage ∧
    cexKcpIncomplete.rcv_queue.length < 1 + 1 := by
  have h := (claim_C3 cexKcpIncomplete).2.2
    { frg := 1, len := 3, data := [10, 11, 12] } [] rfl (by decide)
  exact ⟨h.1.mpr (by decide), by decide⟩

theorem sendStreamPhase_shape (k : KcpControl) (d : List Nat) :
    ∃ q, (sendStreamPhase k d).1 = { k with snd_queue := q } := by
  unfold sendStreamPhase
  split
  · split
    · split
      · exact ⟨_, rfl⟩
      · exact ⟨k.snd_queue, rfl⟩
    · exact ⟨k.snd_queue, rfl⟩
  · exact ⟨k.snd_queue, rfl⟩

theorem send_shape (k : KcpControl) (d : List Nat) :
    ∃ q, (k.send d).2 = { k with snd_queue := q } := by
  obtain ⟨q, hq⟩ := sendStreamPhase_shape k d
  unfold KcpControl.send
  simp only [hq]
  split_ifs <;> exact ⟨_, rfl⟩

theorem receive_shape (k : KcpControl) (b : Option (List Nat)) (p : Bool) :
    ∃ qq bb nn pr, (k.receive b p).2.1 =
      { k with rcv_queue := qq, rcv_buf := bb, rcv_nxt := nn, probe := pr } := by
  simp only [KcpControl.receive]
  split
  · exact ⟨k.rcv_queue, k.rcv_buf, k.rcv_nxt, k.probe, rfl⟩
  · split
    · exact ⟨k.rcv_queue, k.rcv_buf, k.rcv_nxt, k.probe, rfl⟩
    · split
      · exact ⟨k.rcv_queue, k.rcv_buf, k.rcv_nxt, k.probe, rfl⟩
      · exact ⟨_, _, _, _, rfl⟩

theorem receive_rcv_buf_nil (k : KcpControl) (b : Option (List Nat)) (p : Bool)
    (h : k.rcv_buf = []) :
    (k.receive b p).2.1.rcv_buf = [] ∧
    (k.receive b p).2.1.rcv_nxt = k.rcv_nxt := by
  simp only [KcpControl.receive]
  split
  · exact ⟨h, rfl⟩
  · split
    · exact ⟨h, rfl⟩
    · split
      · exact ⟨h, rfl⟩
      · rw [h]
        simp [transferRcv]

theorem stepOp_snd_una (k : KcpControl) (op : Op) :
    (stepOp k op).snd_una = k.snd_una := by
  cases op with
  | opSend d =>
    obtain ⟨q, hq⟩ := send_shape k d
    simp [stepOp, hq]
  | opReceive b p =>
    obtain ⟨qq, bb, nn, pr, hr⟩ := receive_shape k b p
    simp [stepOp, hr]
  | opPeekSize => rfl
  | opSetLogging b => rfl
  | opSetLogMask m => rfl
  | opSetCallback => rfl

theorem stepOp_mtu_mss (k : KcpControl) (op : Op) :
    (stepOp k op).mtu = k.mtu ∧ (stepOp k op).mss = k.mss := by
  cases op with
  | opSend d =>
    obtain ⟨q, hq⟩ := send_shape k d
    simp [stepOp, hq]
  | opReceive b p =>
    obtain ⟨qq, bb, nn, pr, hr⟩ := receive_shape k b p
    simp [stepOp, hr]
  | opPeekSize => exact ⟨rfl, rfl⟩
  | opSetLogging b => exact ⟨rfl, rfl⟩
  | opSetLogMask m => exact ⟨rfl, rfl⟩
  | opSetCallback => exact ⟨rfl, rfl⟩

theorem stepOp_rcv_buf_nil (k : KcpControl) (op : Op) (h : k.rcv_buf = []) :
    (stepOp k op).rcv_buf = [] ∧ (stepOp k op).rcv_nxt = k.rcv_nxt := by
  cases op with
  | opSend d =>
    obtain ⟨q, hq⟩ := send_shape k d
    simp [stepOp, hq, h]
  | opReceive b p => exact receive_rcv_buf_nil k b p h
  | opPeekSize => exact ⟨h, rfl⟩
  | opSetLogging b => exact ⟨h, rfl⟩
  | opSetLogMask m => exact ⟨h, rfl⟩
  | opSetCallback => exact ⟨h, rfl⟩

theorem foldl_stepOp_rcv_buf_nil (ops : List Op) :
    ∀ k : KcpControl, k.rcv_buf = [] → (ops.foldl stepOp k).rcv_buf = [] := by
  induction ops with
  | nil => intro k h; exact h
  | cons op rest ih =>
    intro k h
    exact ih (stepOp k op) (stepOp_rcv_buf_nil k op h).1

theorem run_rcv_buf_nil (conv : Nat) (ops : List Op) :
    (run conv ops).rcv_buf = [] :=
  foldl_stepOp_rcv_buf_nil ops (KcpControl.init conv) rfl

theorem foldl_stepOp_mtu_mss (ops : List Op) :
    ∀ k : KcpControl, (ops.foldl stepOp k).mtu = k.mtu ∧
      (ops.foldl stepOp k).mss = k.mss := by
  induction ops with
  | nil => intro k; exact ⟨rfl, rfl⟩
  | cons op rest ih =>
    intro k
    obtain ⟨h1, h2⟩ := ih (stepOp k op)
    obtain ⟨h3, h4⟩ := stepOp_mtu_mss k op
    exact ⟨h1.trans h3, h2.trans h4⟩

/-- Claim C7: starting from a constructed control block, across any sequence
of the public operations (`send`, `receive`, `peek_size`, and the setters)
the fields `rcv_nxt` and `snd_una` never decrease: after each call each
field is at least its value before the call.  (In the code under src/ no
operation ever adds to the receive buffer or writes `snd_una`, so along any
such sequence both fields are in fact constant.) -/
theorem claim_C7 (conv : Nat) (ops : List Op) (op : Op) :
    (run conv ops).rcv_nxt ≤ (stepOp (run conv ops) op).rcv_nxt ∧
    (run conv ops).snd_una ≤ (stepOp (run conv ops) op).snd_una := by
  constructor
  · exact Nat.le_of_eq
      (stepOp_rcv_buf_nil (run conv ops) op (run_rcv_buf_nil conv ops)).2.symm
  · exact Nat.le_of_eq (stepOp_snd_una (run conv ops) op).symm

/-- Claim C8: `mss = mtu - IKCP_OVERHEAD` always: it holds after
construction (`mtu = 1400`, `mss = 1376`) and is preserved by every public
operation; a runtime mtu change (modelled from the spec, since the excerpt
under src/ contains no mtu setter) rejects `mtu <= IKCP_OVERHEAD` and
otherwise re-derives `mss` accordingly. -/
theorem claim_C8 :
    (∀ conv, (KcpControl.init conv).mtu = 1400 ∧
      (KcpControl.init conv).mss = 1376 ∧
      (KcpControl.init conv).mss = (KcpControl.init conv).mtu - IKCP_OVERHEAD) ∧
    (∀ conv ops, (run conv ops).mtu = 1400 ∧ (run conv ops).mss = 1376 ∧
      (run conv ops).mss = (run conv ops).mtu - IKCP_OVERHEAD) ∧
    (∀ (k : KcpControl) (m : Nat),
      (m ≤ IKCP_OVERHEAD → k.set_mtu m = .error ()) ∧
      (∀ kNew, k.set_mtu m = .ok kNew →
        kNew.mtu = m ∧ kNew.mss = m - IKCP_OVERHEAD)) := by
  refine ⟨fun conv => ⟨rfl, rfl, rfl⟩, fun conv ops => ?_, fun k m => ⟨?_, ?_⟩⟩
  · obtain ⟨h1, h2⟩ := foldl_stepOp_mtu_mss ops (KcpControl.init conv)
    refine ⟨?_, ?_, ?_⟩
    · show (List.foldl stepOp (KcpControl.init conv) ops).mtu = 1400
      rw [h1]; rfl
    · show (List.foldl stepOp (KcpControl.init conv) ops).mss = 1376
      rw [h2]; rfl
    · show (List.foldl stepOp (KcpControl.init conv) ops).mss =
        (List.foldl stepOp (KcpControl.init conv) ops).mtu - IKCP_OVERHEAD
      rw [h1, h2]; rfl
  · intro hle
    simp [KcpControl.set_mtu, hle]
  · intro kNew hok
    unfold KcpControl.set_mtu at hok
    by_cases hle : m ≤ IKCP_OVERHEAD
    · rw [if_pos hle] at hok
      exact Except.noConfusion hok
    · rw [if_neg hle] at hok
      obtain rfl := Except.ok.inj hok
      exact ⟨rfl, rfl⟩

theorem claim_C8_witness :
    (KcpControl.init 0).mss = 1376 ∧
    (KcpControl.init 0).set_mtu 24 = .error () ∧
    (KcpControl.update_mss { KcpControl.init 0 with mtu := 100 }).mtu = 100 ∧
    (KcpControl.update_mss { KcpControl.init 0 with mtu := 100 }).mss = 76 :=
  ⟨(claim_C8.1 0).2.1,
   (claim_C8.2.2 (KcpControl.init 0) 24).1 (by decide),
   ((claim_C8.2.2 (KcpControl.init 0) 100).2 _ rfl).1,
   ((claim_C8.2.2 (KcpControl.init 0) 100).2 _ rfl).2⟩

theorem le_segmentCountRaw_mul (len mss : Nat) (hm : 0 < mss) :
    len ≤ segmentCountRaw len mss * mss := by
  unfold segmentCountRaw
  split_ifs with h
  · rw [Nat.one_mul]
    exact h
  · have h1 := Nat.div_add_mod' (len + mss - 1) mss
    have h2 : (len + mss - 1) % mss < mss := Nat.mod_lt _ hm
    generalize hQ : (len + mss - 1) / mss * mss = q at h1 ⊢
    generalize hR : (len + mss - 1) % mss = r at h1 h2
    omega

theorem segmentCountRaw_pos (len mss : Nat) (hm : 0 < mss) :
    0 < segmentCountRaw len mss := by
  unfold segmentCountRaw
  split_ifs with h
  · exact Nat.one_pos
  · exact Nat.div_pos (by omega) hm

theorem mkSegments_length (st : Bool) (mss : Nat) :
    ∀ (fuel : Nat) (d : List Nat), (mkSegments st mss fuel d).length = fuel := by
  intro fuel
  induction fuel with
  | zero => intro d; rfl
  | succ n ih => intro d; simp [mkSegments, ih]

theorem mkSegments_mem (st : Bool) (mss : Nat) :
    ∀ (fuel : Nat) (d : List Nat) (s : Segment), s ∈ mkSegments st mss fuel d →
      s.len ≤ mss ∧ s.len = s.data.length := by
  intro fuel
  induction fuel with
  | zero =>
    intro d s hs
    simp [mkSegments] at hs
  | succ n ih =>
    intro d s hs
    simp only [mkSegments, List.mem_cons] at hs
    rcases hs with rfl | hs
    · refine ⟨?_, ?_⟩
      · dsimp only
        split_ifs with h <;> omega
      · dsimp only
        rw [List.length_take]
        split_ifs with h <;> omega
    · exact ih _ s hs

theorem mkSegments_flatten (st : Bool) (mss : Nat) :
    ∀ (fuel : Nat) (d : List Nat), d.length ≤ fuel * mss →
      ((mkSegments st mss fuel d).map (·.data)).flatten = d := by
  intro fuel
  induction fuel with
  | zero =>
    intro d hd
    have hnil : d = [] := List.eq_nil_of_length_eq_zero (by omega)
    subst hnil
    rfl
  | succ n ih =>
    intro d hd
    rw [Nat.succ_mul] at hd
    simp only [mkSegments, List.map_cons, List.flatten_cons]
    rw [ih]
    · exact List.take_append_drop _ d
    · rw [List.length_drop]
      split_ifs with h <;> omega

theorem mkSegments_sumLens (st : Bool) (mss : Nat) :
    ∀ (fuel : Nat) (d : List Nat), d.length ≤ fuel * mss →
      sumLens (mkSegments st mss fuel d) = d.length := by
  intro fuel
  induction fuel with
  | zero =>
    intro d hd
    have hnil : d = [] := List.eq_nil_of_length_eq_zero (by omega)
    subst hnil
    rfl
  | succ n ih =>
    intro d hd
    rw [Nat.succ_mul] at hd
    simp only [mkSegments, sumLens, List.map_cons, List.sum_cons]
    rw [show ((mkSegments st mss n (List.drop (if mss < d.length then mss else d.length) d)).map (fun s => s.len)).sum = sumLens (mkSegments st mss n (List.drop (if mss < d.length then mss else d.length) d)) from rfl]
    rw [ih]
    · rw [List.length_drop]
      split_ifs with h <;> omega
    · rw [List.length_drop]
      split_ifs with h <;> omega

theorem mkSegments_frg_packet (mss : Nat) :
    ∀ (fuel : Nat) (d : List Nat) (i : Nat)
      (h : i < (mkSegments false mss fuel d).length),
      ((mkSegments false mss fuel d).get ⟨i, h⟩).frg = fuel - 1 - i := by
  intro fuel
  induction fuel with
  | zero =>
    intro d i h
    rw [mkSegments_length] at h
    omega
  | succ n ih =>
    intro d i h
    cases i with
    | zero => rfl
    | succ j =>
      have hj : j < (mkSegments false mss n
          (List.drop (if mss < d.length then mss else d.length) d)).length := by
        rw [mkSegments_length]
        rw [mkSegments_length] at h
        omega
      have := ih (List.drop (if mss < d.length then mss else d.length) d) j hj
      simp only [mkSegments, List.get_cons_succ]
      rw [this]
      omega

theorem mkSegments_frg_streaming (mss : Nat) :
    ∀ (fuel : Nat) (d : List Nat) (s : Segment),
      s ∈ mkSegments true mss fuel d → s.frg = 0 := by
  intro fuel
  induction fuel with
  | zero =>
    intro d s hs
    simp [mkSegments] at hs
  | succ n ih =>
    intro d s hs
    simp only [mkSegments, List.mem_cons] at hs
    rcases hs with rfl | hs
    · rfl
    · exact ih _ s hs

theorem send_packet_eq (k : KcpControl) (data : List Nat)
    (hs : k.streaming_mode = false) (hm : 0 < k.mss)
    (hw : ¬ k.recv_window ≤ segmentCountRaw data.length k.mss) :
    k.send data =
      (.ok (sumLens (mkSegments false k.mss (segmentCountRaw data.length k.mss) data)),
       { k with snd_queue := k.snd_queue ++
           mkSegments false k.mss (segmentCountRaw data.length k.mss) data }) := by
  have hphase : sendStreamPhase k data = (k, data, 0) := by
    unfold sendStreamPhase
    rw [hs]
    rfl
  have hcount := segmentCountRaw_pos data.length k.mss hm
  simp only [KcpControl.send, hphase, hs]
  rw [if_neg (by simp), if_neg hw, if_neg (by omega)]
  rw [Nat.zero_add]

/-- Claim C1 (amended): in packet mode with `mss > 0`, writing
`segments_needed = segmentCountRaw len mss` (the count the code computes: 1
when `len <= mss` — including an empty slice — and `ceil(len/mss)`
otherwise), if `segments_needed < recv_window` then `send(P)` returns
`Ok(len(P))` and appends exactly `segments_needed` segments to the send
queue, each of payload length at most `mss`, whose payloads concatenated in
queue order equal `P`, with fragment indices counting down from
`segments_needed - 1` to 0. -/
theorem claim_C1 (k : KcpControl) (data : List Nat)
    (hs : k.streaming_mode = false) (hm : 0 < k.mss)
    (hw : segmentCountRaw data.length k.mss < k.recv_window) :
    (k.send data).1 = .ok data.length ∧
    ∃ segs, (k.send data).2.snd_queue = k.snd_queue ++ segs ∧
      segs.length = segmentCountRaw data.length k.mss ∧
      (∀ s ∈ segs, s.len ≤ k.mss) ∧
      (segs.map (·.data)).flatten = data ∧
      (∀ i (h : i < segs.length), (segs.get ⟨i, h⟩).frg = segs.length - 1 - i) := by
  have hbound : data.length ≤ segmentCountRaw data.length k.mss * k.mss :=
    le_segmentCountRaw_mul data.length k.mss hm
  have heq := send_packet_eq k data hs hm (by omega)
  rw [heq]
  refine ⟨?_, mkSegments false k.mss (segmentCountRaw data.length k.mss) data,
    rfl, mkSegments_length _ _ _ _, ?_, ?_, ?_⟩
  · rw [mkSegments_sumLens _ _ _ _ hbound]
  · intro s hs2
    exact (mkSegments_mem _ _ _ _ s hs2).1
  · exact mkSegments_flatten _ _ _ _ hbound
  · intro i h
    rw [mkSegments_frg_packet _ _ _ i h, mkSegments_length]

theorem claim_C1_witness :
    ((KcpControl.init 0).send [1, 2, 3]).1 = .ok 3 :=
  (claim_C1 (KcpControl.init 0) [1, 2, 3] rfl (by decide) (by decide)).1

/-- Claim C1, counterexample to the original wording: in packet mode with
`recv_window = 1` and `P = []`, the claimed precondition
`ceil(len(P)/mss) = 0 < recv_window` holds, yet `send` returns
`Err(WindowFull)` instead of `Ok(0)`, because the code always needs one
whole segment even for an empty slice. -/
theorem claim_C1_cex :
    cexKcp.streaming_mode = false ∧ 0 < cexKcp.mss ∧
    (([] : List Nat).length + cexKcp.mss - 1) / cexKcp.mss < cexKcp.recv_window ∧
    (cexKcp.send []).1 = .error .WindowFull :=
  ⟨rfl, by decide, by decide, rfl⟩

end UltraKcp

namespace UltraKcp

theorem send_stream_append_eq (k : KcpControl) (data : List Nat) (seg : Segment)
    (hs : k.streaming_mode = true) (hl : k.snd_queue.getLast? = some seg)
    (hlen : seg.len < k.mss) (hd : data.length ≤ k.mss - seg.len) :
    k.send data = (.ok data.length,
      { k with snd_queue := k.snd_queue.dropLast ++
          [{ seg with
              data := seg.data ++ data,
              len := seg.len + data.length,
              frg := 0 }] }) := by
  have hext : (if data.length < k.mss - seg.len then data.length else k.mss - seg.len)
      = data.length := by split_ifs with h <;> omega
  have hphase : sendStreamPhase k data =
      ({ k with snd_queue := k.snd_queue.dropLast ++
          [{ seg with
              data := seg.data ++ data,
              len := seg.len + data.length,
              frg := 0 }] },
       [], data.length) := by
    simp only [sendStreamPhase, hs, hl, if_true]
    rw [if_pos hlen, hext, List.take_length, List.drop_length]
  simp only [KcpControl.send, hphase]
  rw [if_pos ⟨hs, trivial⟩]

theorem sendStreamPhase_eq (k : KcpControl) (data : List Nat) :
    sendStreamPhase k data = (k, data, 0) ∨
    ∃ seg, k.snd_queue.getLast? = some seg ∧ seg.len < k.mss ∧
      k.streaming_mode = true ∧
      sendStreamPhase k data =
        ({ k with snd_queue := k.snd_queue.dropLast ++
            [{ seg with
                data := seg.data ++ data.take
                  (if data.length < k.mss - seg.len then data.length
                    else k.mss - seg.len),
                len := seg.len +
                  (if data.length < k.mss - seg.len then data.length
                    else k.mss - seg.len),
                frg := 0 }] },
         data.drop (if data.length < k.mss - seg.len then data.length
            else k.mss - seg.len),
         (if data.length < k.mss - seg.len then data.length
            else k.mss - seg.len)) := by
  by_cases hst : k.streaming_mode = true
  · cases hl : k.snd_queue.getLast? with
    | none =>
      left
      simp only [sendStreamPhase, hst, hl, if_true]
    | some seg =>
      by_cases hlen : seg.len < k.mss
      · right
        refine ⟨seg, rfl, hlen, hst, ?_⟩
        simp only [sendStreamPhase, hst, hl, if_true]
        rw [if_pos hlen]
      · left
        simp only [sendStreamPhase, hst, hl, if_true]
        rw [if_neg hlen]
  · left
    unfold sendStreamPhase
    rw [if_neg hst]

theorem send_stream_frg_zero (k : KcpControl) (data : List Nat)
    (hs : k.streaming_mode = true) (hall : ∀ s ∈ k.snd_queue, s.frg = 0) :
    ∀ s ∈ (k.send data).2.snd_queue, s.frg = 0 := by
  have hphaseAll : ∀ s ∈ (sendStreamPhase k data).1.snd_queue, s.frg = 0 := by
    rcases sendStreamPhase_eq k data with h | ⟨seg, hl, hlen, hst, h⟩
    · rw [h]
      exact hall
    · rw [h]
      intro s hmem
      rcases List.mem_append.mp hmem with hm | hm
      · exact hall s ((List.dropLast_sublist _).subset hm)
      · rw [List.mem_singleton] at hm
        subst hm
        rfl
  intro s hmem
  obtain ⟨q0, hq0⟩ := sendStreamPhase_shape k data
  have hsm : (sendStreamPhase k data).1.streaming_mode = true := by
    rw [hq0]
    exact hs
  simp only [KcpControl.send] at hmem
  split_ifs at hmem with h1 h2 h3 h4
  · exact hphaseAll s hmem
  · exact hphaseAll s hmem
  · exact hphaseAll s hmem
  · rcases List.mem_append.mp hmem with h | h
    · exact hphaseAll s h
    · rw [hsm] at h
      exact mkSegments_frg_streaming _ _ _ s h
  · rcases List.mem_append.mp hmem with h | h
    · exact hphaseAll s h
    · rw [hsm] at h
      exact mkSegments_frg_streaming _ _ _ s h

/-- Claim C5: in streaming mode `send` first tops off the last queued
segment up to `mss` bytes (marking its fragment index 0) before creating any
new segment: when the data fits in the last segment's remaining capacity the
queue keeps its length and only that segment grows; every segment queued in
streaming mode has fragment index 0; and three consecutive 1-byte sends on a
fresh streaming-mode block leave a single coalesced segment. -/
theorem claim_C5 :
    (∀ (k : KcpControl) (data : List Nat) (seg : Segment),
      k.streaming_mode = true → k.snd_queue.getLast? = some seg →
      seg.len < k.mss → data.length ≤ k.mss - seg.len →
      (k.send data).1 = .ok data.length ∧
      (k.send data).2.snd_queue = k.snd_queue.dropLast ++
        [{ seg with
            data := seg.data ++ data,
            len := seg.len + data.length,
            frg := 0 }]) ∧
    (∀ (k : KcpControl) (data : List Nat), k.streaming_mode = true →
      (∀ s ∈ k.snd_queue, s.frg = 0) →
      ∀ s ∈ (k.send data).2.snd_queue, s.frg = 0) ∧
    ((((kStream.send [1]).2.send [2]).2.send [3]).2.snd_queue =
      [{ frg := 0, len := 3, data := [1, 2, 3] }]) := by
  refine ⟨?_, ?_, ?_⟩
  · intro k data seg h1 h2 h3 h4
    have h := send_stream_append_eq k data seg h1 h2 h3 h4
    rw [h]
    exact ⟨rfl, rfl⟩
  · exact send_stream_frg_zero
  · rfl

theorem claim_C5_witness :
    (((kStream.send [1]).2).send [2]).1 = .ok 1 :=
  (claim_C5.1 (kStream.send [1]).2 [2] { frg := 0, len := 1, data := [1] }
    (by decide) (by decide) (by decide) (by decide)).1

/-- Claim C4 (amended): `send` returns `Err(WindowFull)` exactly when the
streaming-mode early return does not fire (not both streaming and all bytes
absorbed by the append), the code's segment count for the remaining bytes
(`segmentCountRaw`: 1 when the remainder fits one segment, including an
empty remainder, else `ceil(len/mss)`) is at least `recv_window`, and no
bytes were appended by this call; in streaming mode, when some bytes were
appended before the window check fails, `send` instead returns `Ok` with the
partial count and the appended bytes stay queued. -/
theorem claim_C4 (k : KcpControl) (data : List Nat) (hm : 0 < k.mss) :
    ((k.send data).1 = .error .WindowFull ↔
      ¬(k.streaming_mode = true ∧ (sendStreamPhase k data).2.1 = []) ∧
      k.recv_window ≤
        segmentCountRaw (sendStreamPhase k data).2.1.length k.mss ∧
      ¬(k.streaming_mode = true ∧ 0 < (sendStreamPhase k data).2.2)) ∧
    (k.streaming_mode = true → 0 < (sendStreamPhase k data).2.2 →
      k.recv_window ≤
        segmentCountRaw (sendStreamPhase k data).2.1.length k.mss →
      (k.send data).1 = .ok (sendStreamPhase k data).2.2 ∧
      (k.send data).2.snd_queue = (sendStreamPhase k data).1.snd_queue) := by
  obtain ⟨q0, hq0⟩ := sendStreamPhase_shape k data
  constructor
  · by_cases h1 : k.streaming_mode = true ∧ (sendStreamPhase k data).2.1 = []
    · have hres : (k.send data).1 = .ok (sendStreamPhase k data).2.2 := by
        simp only [KcpControl.send, hq0]
        rw [if_pos h1]
      rw [hres]
      exact ⟨fun hcontra => Except.noConfusion hcontra,
        fun ⟨ha, _, _⟩ => absurd h1 ha⟩
    · by_cases h2 : k.recv_window ≤
          segmentCountRaw (sendStreamPhase k data).2.1.length k.mss
      · by_cases h3 : k.streaming_mode = true ∧ 0 < (sendStreamPhase k data).2.2
        · have hres : (k.send data).1 = .ok (sendStreamPhase k data).2.2 := by
            simp only [KcpControl.send, hq0]
            rw [if_neg h1, if_pos h2, if_pos h3]
          rw [hres]
          exact ⟨fun hcontra => Except.noConfusion hcontra,
            fun ⟨_, _, hc⟩ => absurd h3 hc⟩
        · have hres : (k.send data).1 = .error .WindowFull := by
            simp only [KcpControl.send, hq0]
            rw [if_neg h1, if_pos h2, if_neg h3]
          rw [hres]
          exact ⟨fun _ => ⟨h1, h2, h3⟩, fun _ => rfl⟩
      · have hres : ∃ v, (k.send data).1 = .ok v := by
          simp only [KcpControl.send, hq0]
          rw [if_neg h1, if_neg h2]
          exact ⟨_, rfl⟩
        obtain ⟨v, hv⟩ := hres
        rw [hv]
        exact ⟨fun hcontra => Except.noConfusion hcontra,
          fun ⟨_, hc, _⟩ => absurd hc h2⟩
  · intro hst hsent hcnt
    simp only [KcpControl.send, hq0]
    by_cases hrem : (sendStreamPhase k data).2.1 = []
    · rw [if_pos ⟨hst, hrem⟩]
      exact ⟨rfl, rfl⟩
    · rw [if_neg (fun hc => hrem hc.2), if_pos hcnt, if_pos ⟨hst, hsent⟩]
      exact ⟨rfl, rfl⟩

theorem claim_C4_witness :
    (cexKcp.send []).1 = .error .WindowFull ↔
      ¬(cexKcp.streaming_mode = true ∧ (sendStreamPhase cexKcp []).2.1 = []) ∧
      cexKcp.recv_window ≤
        segmentCountRaw (sendStreamPhase cexKcp []).2.1.length cexKcp.mss ∧
      ¬(cexKcp.streaming_mode = true ∧ 0 < (sendStreamPhase cexKcp []).2.2) :=
  (claim_C4 cexKcp [] (by decide)).1

/-- Claim C4, counterexample to the original wording: with `recv_window = 1`
in packet mode and an empty slice, zero whole `mss`-sized segments are
mathematically required (`ceil(0/mss) = 0 < recv_window`), yet `send`
returns `Err(WindowFull)`, because the code rounds the needed segment count
up to one even for an empty remainder. -/
theorem claim_C4_cex :
    (cexKcp.send []).1 = .error .WindowFull ∧
    ¬ cexKcp.recv_window ≤ (([] : List Nat).length + cexKcp.mss - 1) / cexKcp.mss :=
  ⟨rfl, by decide⟩

end UltraKcp

namespace UltraKcp

theorem recvLoop_eq (q : List Segment) :
    recvLoop q =
      (((q.take (msgSegCount q)).map (fun s => s.data.take s.len)).flatten,
       sumLens (q.take (msgSegCount q)), msgSegCount q) := by
  induction q with
  | nil => rfl
  | cons s rest ih =>
    by_cases h : s.frg = 0
    · simp [recvLoop, msgSegCount, h, sumLens]
    · simp [recvLoop, msgSegCount, h, sumLens, ih]

theorem peek_size_not_BufferTooSmall (k : KcpControl) :
    k.peek_size ≠ .error .BufferTooSmall := by
  unfold KcpControl.peek_size
  split
  · simp
  · split_ifs <;> simp

theorem peek_ok_total (k : KcpControl) (n : Nat) (hps : k.peek_size = .ok n) :
    n = sumLens (k.rcv_queue.take (msgSegCount k.rcv_queue)) := by
  cases hq : k.rcv_queue with
  | nil => simp [KcpControl.peek_size, hq] at hps
  | cons f r =>
    simp only [KcpControl.peek_size, hq] at hps
    split_ifs at hps with h1 h2
    · obtain rfl := Except.ok.inj hps
      simp [hq, msgSegCount, h1, sumLens]
    · obtain rfl := Except.ok.inj hps
      rw [← hq, peekLoop_eq_sumLens]

theorem transferRcv_shape (buf : List Segment) :
    ∀ (queue : List Segment) (rnxt window : Nat), ∃ j, j ≤ buf.length ∧
      (transferRcv buf queue rnxt window).1 = buf.drop j ∧
      (transferRcv buf queue rnxt window).2.1 = queue ++ buf.take j := by
  induction buf with
  | nil =>
    intro queue rnxt window
    exact ⟨0, Nat.le_refl 0, rfl, by simp [transferRcv]⟩
  | cons seg rest ih =>
    intro queue rnxt window
    by_cases hq : queue.length < window
    · by_cases hsn : seg.sn = rnxt
      · obtain ⟨j, hjle, h1, h2⟩ := ih (queue ++ [seg]) ((rnxt + 1) % U32_MOD) window
        have hstep : transferRcv (seg :: rest) queue rnxt window =
            transferRcv rest (queue ++ [seg]) ((rnxt + 1) % U32_MOD) window := by
          simp only [transferRcv]
          rw [if_pos hq, if_pos hsn]
        refine ⟨j + 1, by simpa using Nat.succ_le_succ hjle, ?_, ?_⟩
        · rw [hstep, h1, List.drop_succ_cons]
        · rw [hstep, h2, List.take_succ_cons, List.append_assoc, List.singleton_append]
      · refine ⟨0, Nat.zero_le _, ?_, ?_⟩ <;>
          · unfold transferRcv
            rw [if_pos hq, if_neg hsn]
            simp
    · refine ⟨0, Nat.zero_le _, ?_, ?_⟩ <;>
        · unfold transferRcv
          rw [if_neg hq]
          simp

theorem transferRcv_spec (buf : List Segment) :
    ∀ (queue : List Segment) (rnxt window : Nat), rnxt < U32_MOD →
    ∃ j, j ≤ buf.length ∧
      transferRcv buf queue rnxt window =
        (buf.drop j, queue ++ buf.take j, (rnxt + j) % U32_MOD) ∧
      ((buf.take j).map (·.sn) =
        (List.range j).map (fun i => (rnxt + i) % U32_MOD)) ∧
      (j = 0 ∨ queue.length + j ≤ window) ∧
      (j = buf.length ∨ window ≤ queue.length + j ∨
        ∀ s rest2, buf.drop j = s :: rest2 → s.sn ≠ (rnxt + j) % U32_MOD) := by
  induction buf with
  | nil =>
    intro queue rnxt window hr
    refine ⟨0, Nat.le_refl 0, ?_, rfl, Or.inl rfl, Or.inl rfl⟩
    simp [transferRcv, Nat.mod_eq_of_lt hr]
  | cons seg rest ih =>
    intro queue rnxt window hr
    by_cases hq : queue.length < window
    · by_cases hsn : seg.sn = rnxt
      · have hm : 0 < U32_MOD := by norm_num [U32_MOD]
        obtain ⟨j, hjle, htr, hsns, hwin, hstop⟩ :=
          ih (queue ++ [seg]) ((rnxt + 1) % U32_MOD) window (Nat.mod_lt _ hm)
        have hstep : transferRcv (seg :: rest) queue rnxt window =
            transferRcv rest (queue ++ [seg]) ((rnxt + 1) % U32_MOD) window := by
          simp only [transferRcv]
          rw [if_pos hq, if_pos hsn]
        have hmod : ∀ i : Nat, ((rnxt + 1) % U32_MOD + i) % U32_MOD =
            (rnxt + (i + 1)) % U32_MOD := by
          intro i
          rw [Nat.mod_add_mod]
          congr 1
          omega
        refine ⟨j + 1, by simpa using Nat.succ_le_succ hjle, ?_, ?_, ?_, ?_⟩
        · rw [hstep, htr, List.drop_succ_cons, List.take_succ_cons,
            List.append_assoc, List.singleton_append, hmod j]
        · rw [List.take_succ_cons, List.map_cons, hsns, hsn,
            List.range_succ_eq_map, List.map_cons, List.map_map]
          congr 1
          · rw [Nat.add_zero, Nat.mod_eq_of_lt hr]
          · refine List.map_congr_left ?_
            intro i _
            simp only [Function.comp]
            rw [hmod i]
        · right
          rcases hwin with h0 | hle
          · subst h0
            omega
          · rw [List.length_append] at hle
            simp at hle
            omega
        · rcases hstop with h0 | hle | hmis
          · left
            simp [h0]
          · right
            left
            rw [List.length_append] at hle
            simp at hle
            omega
          · right
            right
            intro s rest2 hdrop
            rw [List.drop_succ_cons] at hdrop
            have hne := hmis s rest2 hdrop
            intro hcontra
            apply hne
            rw [hmod j]
            exact hcontra
      · refine ⟨0, Nat.zero_le _, ?_, rfl, Or.inl rfl, ?_⟩
        · unfold transferRcv
          rw [if_pos hq, if_neg hsn]
          simp [Nat.mod_eq_of_lt hr]
        · right
          right
          intro s rest2 hdrop
          rw [List.drop_zero] at hdrop
          injection hdrop with hs1 hs2
          subst hs1
          rw [Nat.add_zero, Nat.mod_eq_of_lt hr]
          exact hsn
    · refine ⟨0, Nat.zero_le _, ?_, rfl, Or.inl rfl, Or.inr (Or.inl (by omega))⟩
      unfold transferRcv
      rw [if_neg hq]
      simp [Nat.mod_eq_of_lt hr]

theorem receive_ok_eq (k : KcpControl) (data : Option (List Nat)) (isPeek : Bool)
    (n : Nat) (hps : k.peek_size = .ok n)
    (hfit : ∀ b, data = some b → n ≤ b.length) :
    k.receive data isPeek =
      (.ok (recvLoop k.rcv_queue).2.1,
       { k with
          rcv_queue := (transferRcv k.rcv_buf
            (if isPeek then k.rcv_queue
             else k.rcv_queue.drop (recvLoop k.rcv_queue).2.2)
            k.rcv_nxt k.recv_window).2.1,
          rcv_buf := (transferRcv k.rcv_buf
            (if isPeek then k.rcv_queue
             else k.rcv_queue.drop (recvLoop k.rcv_queue).2.2)
            k.rcv_nxt k.recv_window).1,
          rcv_nxt := (transferRcv k.rcv_buf
            (if isPeek then k.rcv_queue
             else k.rcv_queue.drop (recvLoop k.rcv_queue).2.2)
            k.rcv_nxt k.recv_window).2.2,
          probe := if (transferRcv k.rcv_buf
              (if isPeek then k.rcv_queue
               else k.rcv_queue.drop (recvLoop k.rcv_queue).2.2)
              k.rcv_nxt k.recv_window).2.1.length < k.recv_window ∧
              k.recv_window ≤ k.rcv_queue.length then
            Nat.lor k.probe ASK_TELL else k.probe },
       match data with
       | some b => some ((recvLoop k.rcv_queue).1 ++
           b.drop (recvLoop k.rcv_queue).1.length)
       | none => none) := by
  have hq : ¬ k.rcv_queue = [] := by
    intro h
    simp [KcpControl.peek_size, h] at hps
  cases data with
  | none =>
    simp only [KcpControl.receive, hps]
    rw [if_neg hq]
    rfl
  | some b =>
    have hnlt : ¬ b.length < n := Nat.not_lt.mpr (hfit b rfl)
    simp only [KcpControl.receive, hps]
    rw [if_neg hq]
    rw [if_neg (by simpa using hnlt)]

end UltraKcp

namespace UltraKcp

/-- Claim C2 (amended): `receive` with a caller buffer returns `QueueEmpty`
when the receive queue is empty and `BufferTooSmall` when the buffer is
smaller than a successful `peek_size()`; additionally (the amendment) it
propagates `peek_size()`'s `IncompleteMessage` error when the queue is
nonempty but the leading message is incomplete.  In every error case the
control block and the buffer are left entirely unchanged.  Otherwise it
returns `Ok(n)` with `n` the `peek_size()` value (the summed lengths of the
message's segments), the buffer now starts with the message's payload bytes
copied in queue order, and the queue afterwards is the original queue minus
the consumed message (minus nothing when peeking) followed by whatever
`receive` then pulled in from the receive buffer. -/
theorem claim_C2 (k : KcpControl) (buf : List Nat) (isPeek : Bool) :
    (k.rcv_queue = [] →
      k.receive (some buf) isPeek = (.error .QueueEmpty, k, some buf)) ∧
    (∀ e, k.peek_size = .error e →
      k.receive (some buf) isPeek = (.error e, k, some buf)) ∧
    (∀ n, k.peek_size = .ok n → buf.length < n →
      k.receive (some buf) isPeek = (.error .BufferTooSmall, k, some buf)) ∧
    (∀ n, k.peek_size = .ok n → n ≤ buf.length →
      (k.receive (some buf) isPeek).1 = .ok n ∧
      n = sumLens (k.rcv_queue.take (msgSegCount k.rcv_queue)) ∧
      (k.receive (some buf) isPeek).2.2 = some
        (((k.rcv_queue.take (msgSegCount k.rcv_queue)).map
            (fun s => s.data.take s.len)).flatten ++
          buf.drop ((k.rcv_queue.take (msgSegCount k.rcv_queue)).map
            (fun s => s.data.take s.len)).flatten.length) ∧
      ∃ j, j ≤ k.rcv_buf.length ∧
        (k.receive (some buf) isPeek).2.1.rcv_queue =
          consumedQueue k isPeek ++ k.rcv_buf.take j ∧
        (k.receive (some buf) isPeek).2.1.rcv_buf = k.rcv_buf.drop j) := by
  refine ⟨?_, ?_, ?_, ?_⟩
  · intro h
    simp [KcpControl.receive, h]
  · intro e hps
    by_cases hq : k.rcv_queue = []
    · have h2 : k.peek_size = .error .QueueEmpty := by
        simp [KcpControl.peek_size, hq]
      rw [h2] at hps
      obtain rfl := Except.error.inj hps
      simp [KcpControl.receive, hq]
    · simp only [KcpControl.receive, hps]
      rw [if_neg hq]
  · intro n hps hlt
    have hq : ¬ k.rcv_queue = [] := by
      intro h
      simp [KcpControl.peek_size, h] at hps
    simp only [KcpControl.receive, hps]
    rw [if_neg hq, if_pos (by simpa using hlt)]
  · intro n hps hle
    have heq := receive_ok_eq k (some buf) isPeek n hps
      (by intro b hb; obtain rfl := Option.some.inj hb; exact hle)
    have htotal := peek_ok_total k n hps
    have hq1 : (if isPeek then k.rcv_queue
        else k.rcv_queue.drop (recvLoop k.rcv_queue).2.2) =
        consumedQueue k isPeek := by
      rw [recvLoop_eq]
      rfl
    obtain ⟨j, hjle, hb1, hb2⟩ := transferRcv_shape k.rcv_buf
      (consumedQueue k isPeek) k.rcv_nxt k.recv_window
    refine ⟨?_, htotal, ?_, j, hjle, ?_, ?_⟩
    · simp only [heq, recvLoop_eq]
      rw [← htotal]
    · simp only [heq, recvLoop_eq]
    · simp only [heq, hq1]
      rw [hb2]
    · simp only [heq, hq1]
      rw [hb1]

theorem claim_C2_witness :
    (cexKcpMsg.receive (some (List.replicate 10 0)) false).1 = .ok 3 :=
  ((claim_C2 cexKcpMsg (List.replicate 10 0) false).2.2.2 3 rfl (by decide)).1

/-- Claim C2, counterexample to the original wording: with a nonempty
receive queue holding only the first fragment of a two-fragment message and
an amply sized buffer, `receive` returns neither `QueueEmpty` nor
`BufferTooSmall` nor `Ok`: it propagates `IncompleteMessage` from
`peek_size`, a case the claim does not admit. -/
theorem claim_C2_cex :
    cexKcpIncomplete.rcv_queue ≠ [] ∧
    (cexKcpIncomplete.receive (some (List.replicate 10 0)) false).1 =
      .error .IncompleteMessage ∧
    KcpError.IncompleteMessage ≠ KcpError.QueueEmpty ∧
    KcpError.IncompleteMessage ≠ KcpError.BufferTooSmall :=
  ⟨by decide, rfl, by decide, by decide⟩

end UltraKcp

namespace UltraKcp

theorem testBit_one_lor_ask_tell (a : Nat) :
    Nat.testBit (Nat.lor a ASK_TELL) 1 = true := by
  have h1 : Nat.lor a ASK_TELL = a ||| ASK_TELL := rfl
  rw [h1, Nat.testBit_lor]
  have h2 : Nat.testBit ASK_TELL 1 = true := by decide
  rw [h2, Bool.or_true]

/-- Claim C6: after a successful `receive`, segments moved from the head of
the receive buffer to the tail of the receive queue form exactly the longest
prefix whose sequence numbers run consecutively from `rcv_nxt` while the
queue stays below `recv_window` (a head whose sequence number differs stops
the transfer and stays buffered), `rcv_nxt` is incremented (as a `u32`) once
per moved segment, and the ASK_TELL probe flag is set exactly under the
fast-recovery condition: queue at capacity before the call and below
capacity after the transfer. -/
theorem claim_C6 (k : KcpControl) (data : Option (List Nat)) (isPeek : Bool)
    (n : Nat) (hok : (k.receive data isPeek).1 = .ok n)
    (hr : k.rcv_nxt < U32_MOD) :
    ∃ j, j ≤ k.rcv_buf.length ∧
      (k.receive data isPeek).2.1.rcv_queue =
        consumedQueue k isPeek ++ k.rcv_buf.take j ∧
      (k.receive data isPeek).2.1.rcv_buf = k.rcv_buf.drop j ∧
      (k.receive data isPeek).2.1.rcv_nxt = (k.rcv_nxt + j) % U32_MOD ∧
      ((k.rcv_buf.take j).map (·.sn) =
        (List.range j).map (fun i => (k.rcv_nxt + i) % U32_MOD)) ∧
      (j = 0 ∨ (consumedQueue k isPeek).length + j ≤ k.recv_window) ∧
      (j = k.rcv_buf.length ∨
        k.recv_window ≤ (consumedQueue k isPeek).length + j ∨
        ∀ s rest2, k.rcv_buf.drop j = s :: rest2 →
          s.sn ≠ (k.rcv_nxt + j) % U32_MOD) ∧
      (k.receive data isPeek).2.1.probe =
        (if (consumedQueue k isPeek ++ k.rcv_buf.take j).length < k.recv_window ∧
            k.recv_window ≤ k.rcv_queue.length
         then Nat.lor k.probe ASK_TELL else k.probe) ∧
      ((consumedQueue k isPeek ++ k.rcv_buf.take j).length < k.recv_window →
        k.recv_window ≤ k.rcv_queue.length →
        Nat.testBit (k.receive data isPeek).2.1.probe 1 = true) := by
  by_cases hq : k.rcv_queue = []
  · exfalso
    have hres : (k.receive data isPeek).1 = .error .QueueEmpty := by
      simp [KcpControl.receive, hq]
    rw [hres] at hok
    exact Except.noConfusion hok
  cases hps : k.peek_size with
  | error e =>
    exfalso
    have hres : (k.receive data isPeek).1 = .error e := by
      simp only [KcpControl.receive, hps]
      rw [if_neg hq]
    rw [hres] at hok
    exact Except.noConfusion hok
  | ok n0 =>
    have hfit : ∀ b, data = some b → n0 ≤ b.length := by
      intro b hb
      by_contra hlt
      push_neg at hlt
      subst hb
      have hres : (k.receive (some b) isPeek).1 = .error .BufferTooSmall := by
        simp only [KcpControl.receive, hps]
        rw [if_neg hq, if_pos (by simpa using hlt)]
      rw [hres] at hok
      exact Except.noConfusion hok
    have heq := receive_ok_eq k data isPeek n0 hps hfit
    have hq1 : (if isPeek then k.rcv_queue
        else k.rcv_queue.drop (recvLoop k.rcv_queue).2.2) =
        consumedQueue k isPeek := by
      rw [recvLoop_eq]
      rfl
    obtain ⟨j, hjle, htr, hsns, hwin, hstop⟩ :=
      transferRcv_spec k.rcv_buf (consumedQueue k isPeek) k.rcv_nxt
        k.recv_window hr
    refine ⟨j, hjle, ?_, ?_, ?_, hsns, hwin, hstop, ?_, ?_⟩
    · simp only [heq, hq1, htr]
    · simp only [heq, hq1, htr]
    · simp only [heq, hq1, htr]
    · simp only [heq, hq1, htr]
    · intro hlt hrec
      simp only [heq, hq1, htr]
      rw [if_pos ⟨hlt, hrec⟩]
      exact testBit_one_lor_ask_tell k.probe

/-- Claim C10: `receive` with no output buffer never fails with
`BufferTooSmall` (the buffer-size check is skipped), and with a complete
message queued, `receive(None, false)` consumes the message's segments from
the queue, copies nothing anywhere (the returned buffer slot stays `None`),
and returns the message's total byte length. -/
theorem claim_C10 :
    (∀ (k : KcpControl) (isPeek : Bool),
      (k.receive none isPeek).1 ≠ .error .BufferTooSmall) ∧
    (∀ (k : KcpControl) (n : Nat), k.peek_size = .ok n →
      (k.receive none false).1 = .ok n ∧
      (k.receive none false).2.2 = none ∧
      n = sumLens (k.rcv_queue.take (msgSegCount k.rcv_queue)) ∧
      ∃ j, j ≤ k.rcv_buf.length ∧
        (k.receive none false).2.1.rcv_queue =
          k.rcv_queue.drop (msgSegCount k.rcv_queue) ++ k.rcv_buf.take j ∧
        (k.receive none false).2.1.rcv_buf = k.rcv_buf.drop j) := by
  constructor
  · intro k isPeek
    by_cases hq : k.rcv_queue = []
    · have hres : (k.receive none isPeek).1 = .error .QueueEmpty := by
        simp [KcpControl.receive, hq]
      rw [hres]
      simp
    · cases hps : k.peek_size with
      | error e =>
        have hres : (k.receive none isPeek).1 = .error e := by
          simp only [KcpControl.receive, hps]
          rw [if_neg hq]
        rw [hres]
        intro hcontra
        obtain rfl := Except.error.inj hcontra
        exact peek_size_not_BufferTooSmall k hps
      | ok n =>
        have heq := receive_ok_eq k none isPeek n hps
          (fun b hb => Option.noConfusion hb)
        rw [heq]
        simp
  · intro k n hps
    have heq := receive_ok_eq k none false n hps
      (fun b hb => Option.noConfusion hb)
    have htotal := peek_ok_total k n hps
    have hq1 : (if false then k.rcv_queue
        else k.rcv_queue.drop (recvLoop k.rcv_queue).2.2) =
        k.rcv_queue.drop (msgSegCount k.rcv_queue) := by
      rw [recvLoop_eq]
      rfl
    obtain ⟨j, hjle, hb1, hb2⟩ := transferRcv_shape k.rcv_buf
      (k.rcv_queue.drop (msgSegCount k.rcv_queue)) k.rcv_nxt k.recv_window
    refine ⟨?_, ?_, htotal, j, hjle, ?_, ?_⟩
    · simp only [heq, recvLoop_eq]
      rw [← htotal]
    · simp only [heq]
    · simp only [heq, hq1]
      rw [hb2]
    · simp only [heq, hq1]
      rw [hb1]

theorem claim_C10_witness :
    (cexKcpMsg.receive none false).1 = .ok 3 ∧
    (cexKcpMsg.receive none false).2.2 = none :=
  ⟨(claim_C10.2 cexKcpMsg 3 rfl).1, (claim_C10.2 cexKcpMsg 3 rfl).2.1⟩

theorem claim_C6_witness :
    ∃ j, j ≤ cexKcpMsg.rcv_buf.length ∧
      (cexKcpMsg.receive none false).2.1.rcv_queue =
        consumedQueue cexKcpMsg false ++ cexKcpMsg.rcv_buf.take j ∧
      (cexKcpMsg.receive none false).2.1.rcv_buf = cexKcpMsg.rcv_buf.drop j ∧
      (cexKcpMsg.receive none false).2.1.rcv_nxt =
        (cexKcpMsg.rcv_nxt + j) % U32_MOD ∧
      ((cexKcpMsg.rcv_buf.take j).map (·.sn) =
        (List.range j).map (fun i => (cexKcpMsg.rcv_nxt + i) % U32_MOD)) ∧
      (j = 0 ∨ (consumedQueue cexKcpMsg false).length + j ≤
        cexKcpMsg.recv_window) ∧
      (j = cexKcpMsg.rcv_buf.length ∨
        cexKcpMsg.recv_window ≤ (consumedQueue cexKcpMsg false).length + j ∨
        ∀ s rest2, cexKcpMsg.rcv_buf.drop j = s :: rest2 →
          s.sn ≠ (cexKcpMsg.rcv_nxt + j) % U32_MOD) ∧
      (cexKcpMsg.receive none false).2.1.probe =
        (if (consumedQueue cexKcpMsg false ++ cexKcpMsg.rcv_buf.take j).length <
            cexKcpMsg.recv_window ∧
            cexKcpMsg.recv_window ≤ cexKcpMsg.rcv_queue.length
         then Nat.lor cexKcpMsg.probe ASK_TELL else cexKcpMsg.probe) ∧
      ((consumedQueue cexKcpMsg false ++ cexKcpMsg.rcv_buf.take j).length <
          cexKcpMsg.recv_window →
        cexKcpMsg.recv_window ≤ cexKcpMsg.rcv_queue.length →
        Nat.testBit (cexKcpMsg.receive none false).2.1.probe 1 = true) :=
  claim_C6 cexKcpMsg none false 3 rfl (by decide)

end UltraKcp
